import Mathlib

set_option maxRecDepth 8192

/-!
Shallow embedding of the tokenizer in src/lexer.rs (tbasic-rsc).

The Rust struct `Lexer` holds a character iterator `input : Chars` and a
`position : usize` field.  Here the state is passed explicitly: the iterator
is the list of not-yet-consumed characters, the position field a natural
number.  `next_token` returns the optional token together with the updated
state `(remaining input, position)`.  Rust `i32` arithmetic is modelled on
unbounded integers with an explicit two's-complement wrap at each operation
(release-build wrapping semantics; the source performs no overflow check).

The identifier loop of the source calls `char::is_alphanumeric` from the
Rust standard library, whose full Unicode tables (`is_alphabetic ||
is_numeric`) lie outside this repository.  The lexer is therefore embedded
parametrically in that continuation predicate (`read_string_with`,
`next_token_with`, `tokenize_with`): every general theorem below holds for
an arbitrary predicate, so in particular for the real Unicode one.  On the
ASCII plane the Unicode predicate is exactly the letters and digits; that
exactly-known restriction (`is_alphanumeric`) instantiates the parameter to
run the model on concrete ASCII inputs, where it coincides with the
program.
-/

/-- Tokens produced by the lexer, mirroring the Rust `Token` enum
(`Number(i32)` and `Id(String)` carry payloads, the rest are markers). -/
inductive Token where
  | Number : Int → Token
  | Plus : Token
  | Minus : Token
  | Multiply : Token
  | Divide : Token
  | Lparen : Token
  | Rparen : Token
  | Id : String → Token
  | Assign : Token
  | If : Token
  | Else : Token
  | CurlyL : Token
  | CurlyR : Token
  | Equals : Token
  | SmallerThan : Token
  | GreaterThan : Token
  | SmallerEquals : Token
  | GreaterEquals : Token
  | Not : Token
  | And : Token
  | Or : Token
deriving DecidableEq

/-- Wrap an unbounded integer into the two's-complement `i32` range,
modelling Rust release-build wrapping arithmetic on `i32`. -/
def i32wrap (x : Int) : Int := (x + 2 ^ 31) % 2 ^ 32 - 2 ^ 31

/-- Models Rust `char::to_digit(10)`: `some d` for an ASCII decimal digit,
`none` for every other character (exact for all of Unicode: radix 10
accepts only `'0'..='9'`). -/
def to_digit (c : Char) : Option Nat :=
  if '0' ≤ c ∧ c ≤ '9' then some (c.toNat - 48) else none

/-- The ASCII restriction of Rust `char::is_alphanumeric`.  On ASCII code
points the Unicode predicate is exactly the letters and digits below; the
full Unicode tables are outside this repository, so the lexer is embedded
parametrically in the predicate and this exactly-known restriction is used
to run the model on concrete ASCII inputs. -/
def is_alphanumeric (c : Char) : Bool :=
  decide ('a' ≤ c ∧ c ≤ 'z') || decide ('A' ≤ c ∧ c ≤ 'Z') || decide ('0' ≤ c ∧ c ≤ '9')

/-- Models `Lexer::lookahead`: inspect the next character on a clone of the
iterator, leaving the real state untouched. -/
def lookahead (input : List Char) : Option Char := input.head?

/-- Models `Lexer::read_string`, parametric in the alphanumeric predicate
`alnum` standing for Rust std's `char::is_alphanumeric`: peek the next
character, and while `alnum` accepts it push it and consume it.  Returns the
accumulated characters and the remaining input.  The `position` field is
not touched by this loop. -/
def read_string_with (alnum : Char → Bool) : List Char → List Char × List Char
  | [] => ([], [])
  | c :: rest =>
    if alnum c then
      let r := read_string_with alnum rest
      (c :: r.1, r.2)
    else ([], c :: rest)

/-- `Lexer::read_string` specialized to the ASCII restriction of the
alphanumeric predicate; coincides with the program wherever only ASCII
characters are consulted. -/
def read_string : List Char → List Char × List Char :=
  read_string_with is_alphanumeric

/-- Models the digit-accumulation loop in the `'0'..='9'` arm of
`Lexer::next_token`: peek the next character on a cloned iterator, and while
it is a digit fold it into `total` (each `i32` operation wraps) and consume
it.  Returns the accumulated total and the remaining input. -/
def readNumber (total : Int) : List Char → Int × List Char
  | [] => (total, [])
  | c :: rest =>
    match to_digit c with
    | some num => readNumber (i32wrap (i32wrap (total * 10) + Int.ofNat num)) rest
    | none => (total, c :: rest)

/-- Models the keyword match on the accumulated identifier string in the
`'a'..='z'` arm of `Lexer::next_token` (the fixed keyword table). -/
def keyword_lookup (id : String) : Token :=
  if id = "if" then Token.If
  else if id = "else" then Token.Else
  else Token.Id id

/-- Models `Lexer::next_token`, parametric in the alphanumeric continuation
predicate.  One character is taken from the iterator and `position` is
incremented; the single-character dispatch then follows the arms of the
Rust `match` in source order.  Result: the optional token, the remaining
input, and the updated `position` field.  Inner consumes (digit runs,
identifier runs, the second character of a two-character operator) do not
touch `position`, exactly as in the source. -/
def next_token_with (alnum : Char → Bool) : List Char → Nat → Option Token × List Char × Nat
  | [], p => (none, [], p)
  | c :: rest, p =>
    if '0' ≤ c ∧ c ≤ '9' then
      match to_digit c with
      | none => (none, rest, p + 1)
      | some d =>
        let r := readNumber (Int.ofNat d) rest
        (some (Token.Number r.1), r.2, p + 1)
    else if 'a' ≤ c ∧ c ≤ 'z' then
      let r := read_string_with alnum rest
      (some (keyword_lookup (String.mk (c :: r.1))), r.2, p + 1)
    else if c = '+' then (some Token.Plus, rest, p + 1)
    else if c = '-' then (some Token.Minus, rest, p + 1)
    else if c = '*' then (some Token.Multiply, rest, p + 1)
    else if c = '/' then (some Token.Divide, rest, p + 1)
    else if c = '(' then (some Token.Lparen, rest, p + 1)
    else if c = ')' then (some Token.Rparen, rest, p + 1)
    else if c = ' ' then next_token_with alnum rest (p + 1)
    else if c = '=' then
      if lookahead rest = some '=' then (some Token.Equals, rest.tail, p + 1)
      else (some Token.Assign, rest, p + 1)
    else if c = '\x7b' then (some Token.CurlyL, rest, p + 1)
    else if c = '\x7d' then (some Token.CurlyR, rest, p + 1)
    else if c = '<' then
      if lookahead rest = some '=' then (some Token.SmallerEquals, rest.tail, p + 1)
      else (some Token.SmallerThan, rest, p + 1)
    else if c = '>' then
      if lookahead rest = some '=' then (some Token.GreaterEquals, rest.tail, p + 1)
      else (some Token.GreaterThan, rest, p + 1)
    else if c = '!' then (some Token.Not, rest, p + 1)
    else if c = '&' then
      if lookahead rest = some '&' then (some Token.And, rest.tail, p + 1)
      else (none, rest, p + 1)
    else if c = '|' then
      if lookahead rest = some '|' then (some Token.Or, rest.tail, p + 1)
      else (none, rest, p + 1)
    else (none, rest, p + 1)

/-- `Lexer::next_token` specialized to the ASCII restriction of the
alphanumeric predicate; coincides with the program wherever only ASCII
characters are consulted. -/
def next_token : List Char → Nat → Option Token × List Char × Nat :=
  next_token_with is_alphanumeric

/-- Fuelled form of the `while let Some(token) = self.next_token()` loop of
`Lexer::tokenize`, parametric in the alphanumeric predicate.  The fuel only
bounds the number of loop iterations; the adequacy lemma below shows the
result is the same for every fuel larger than the input length, so this is
a faithful rendering of the Rust loop, which performs at most
`input.length` iterations. -/
def tokenize_fuel_with (alnum : Char → Bool) : Nat → List Char → Nat → List Token × List Char × Nat
  | 0, input, p => ([], input, p)
  | f + 1, input, p =>
    match next_token_with alnum input p with
    | (none, input1, p1) => ([], input1, p1)
    | (some t, input1, p1) =>
      let r := tokenize_fuel_with alnum f input1 p1
      (t :: r.1, r.2)

/-- The fuelled loop specialized to the ASCII restriction. -/
def tokenize_fuel : Nat → List Char → Nat → List Token × List Char × Nat :=
  tokenize_fuel_with is_alphanumeric

/-- Models `Lexer::tokenize`, parametric in the alphanumeric predicate: run
the extraction loop to completion from the given state, returning the
collected tokens and the final state. -/
def tokenize_with (alnum : Char → Bool) (input : List Char) (p : Nat) :
    List Token × List Char × Nat :=
  tokenize_fuel_with alnum (input.length + 1) input p

/-- `Lexer::tokenize` specialized to the ASCII restriction of the
alphanumeric predicate; coincides with the program wherever only ASCII
characters are consulted. -/
def tokenize (input : List Char) (p : Nat) : List Token × List Char × Nat :=
  tokenize_with is_alphanumeric input p

/-- Decimal value of a digit string, with accumulator (spec-side definition
used to state what `Number` payloads should be). -/
def decValAux : Nat → List Char → Nat
  | a, [] => a
  | a, c :: ds => decValAux (a * 10 + (c.toNat - 48)) ds

/-- Decimal value of a digit string. -/
def decVal (ds : List Char) : Nat := decValAux 0 ds

/-- The list of characters following an identifier run must not start with
a character the continuation predicate accepts (otherwise the run would
continue into it). -/
def idBoundary (alnum : Char → Bool) : List Char → Bool
  | [] => true
  | c :: _ => !(alnum c)

/-- Unfolding of the `' '` arm: a space is consumed (the position field is
incremented for it) and scanning retries by a recursive call. -/
theorem next_token_with_space (alnum : Char → Bool) (rest : List Char) (p : Nat) :
    next_token_with alnum (' ' :: rest) p = next_token_with alnum rest (p + 1) := by
  simp [next_token_with]

/-- The space arm, at the ASCII instantiation. -/
theorem next_token_space (rest : List Char) (p : Nat) :
    next_token (' ' :: rest) p = next_token rest (p + 1) :=
  next_token_with_space is_alphanumeric rest p

/-- Unfolding of the `'0'..='9'` arm of `next_token_with` (the digit arm
never consults the alphanumeric predicate). -/
theorem next_token_with_digit (alnum : Char → Bool) (c : Char) (rest : List Char) (p : Nat)
    (h : '0' ≤ c ∧ c ≤ '9') :
    next_token_with alnum (c :: rest) p =
      (some (Token.Number (readNumber (Int.ofNat (c.toNat - 48)) rest).1),
        (readNumber (Int.ofNat (c.toNat - 48)) rest).2, p + 1) := by
  have hd : to_digit c = some (c.toNat - 48) := by rw [to_digit, if_pos h]
  simp only [next_token_with]
  rw [if_pos h, hd]

/-- The digit arm, at the ASCII instantiation. -/
theorem next_token_digit (c : Char) (rest : List Char) (p : Nat) (h : '0' ≤ c ∧ c ≤ '9') :
    next_token (c :: rest) p =
      (some (Token.Number (readNumber (Int.ofNat (c.toNat - 48)) rest).1),
        (readNumber (Int.ofNat (c.toNat - 48)) rest).2, p + 1) :=
  next_token_with_digit is_alphanumeric c rest p h

/-- Unfolding of the `'a'..='z'` arm of `next_token_with`. -/
theorem next_token_with_lower (alnum : Char → Bool) (c : Char) (rest : List Char) (p : Nat)
    (h : 'a' ≤ c ∧ c ≤ 'z') :
    next_token_with alnum (c :: rest) p =
      (some (keyword_lookup (String.mk (c :: (read_string_with alnum rest).1))),
        (read_string_with alnum rest).2, p + 1) := by
  have h1 : ¬('0' ≤ c ∧ c ≤ '9') := by
    rintro ⟨-, h9⟩
    exact absurd (le_trans h.1 h9) (by decide)
  simp only [next_token_with]
  rw [if_neg h1, if_pos h]

/-- Unfolding of the `'='` arm of `next_token_with`. -/
theorem next_token_with_eq_dispatch (alnum : Char → Bool) (rest : List Char) (p : Nat) :
    next_token_with alnum ('=' :: rest) p =
      if lookahead rest = some '=' then (some Token.Equals, rest.tail, p + 1)
      else (some Token.Assign, rest, p + 1) := by
  simp [next_token_with]

/-- The `'='` arm, at the ASCII instantiation. -/
theorem next_token_eq_dispatch (rest : List Char) (p : Nat) :
    next_token ('=' :: rest) p =
      if lookahead rest = some '=' then (some Token.Equals, rest.tail, p + 1)
      else (some Token.Assign, rest, p + 1) :=
  next_token_with_eq_dispatch is_alphanumeric rest p

/-- Unfolding of the `'<'` arm of `next_token_with`. -/
theorem next_token_with_lt_dispatch (alnum : Char → Bool) (rest : List Char) (p : Nat) :
    next_token_with alnum ('<' :: rest) p =
      if lookahead rest = some '=' then (some Token.SmallerEquals, rest.tail, p + 1)
      else (some Token.SmallerThan, rest, p + 1) := by
  simp [next_token_with]

/-- The `'<'` arm, at the ASCII instantiation. -/
theorem next_token_lt_dispatch (rest : List Char) (p : Nat) :
    next_token ('<' :: rest) p =
      if lookahead rest = some '=' then (some Token.SmallerEquals, rest.tail, p + 1)
      else (some Token.SmallerThan, rest, p + 1) :=
  next_token_with_lt_dispatch is_alphanumeric rest p

/-- Unfolding of the `'>'` arm of `next_token_with`. -/
theorem next_token_with_gt_dispatch (alnum : Char → Bool) (rest : List Char) (p : Nat) :
    next_token_with alnum ('>' :: rest) p =
      if lookahead rest = some '=' then (some Token.GreaterEquals, rest.tail, p + 1)
      else (some Token.GreaterThan, rest, p + 1) := by
  simp [next_token_with]

/-- The `'>'` arm, at the ASCII instantiation. -/
theorem next_token_gt_dispatch (rest : List Char) (p : Nat) :
    next_token ('>' :: rest) p =
      if lookahead rest = some '=' then (some Token.GreaterEquals, rest.tail, p + 1)
      else (some Token.GreaterThan, rest, p + 1) :=
  next_token_with_gt_dispatch is_alphanumeric rest p

/-- Unfolding of the `'&'` arm of `next_token_with`. -/
theorem next_token_with_amp_dispatch (alnum : Char → Bool) (rest : List Char) (p : Nat) :
    next_token_with alnum ('&' :: rest) p =
      if lookahead rest = some '&' then (some Token.And, rest.tail, p + 1)
      else (none, rest, p + 1) := by
  simp [next_token_with]

/-- Unfolding of the `'|'` arm of `next_token_with`. -/
theorem next_token_with_pipe_dispatch (alnum : Char → Bool) (rest : List Char) (p : Nat) :
    next_token_with alnum ('|' :: rest) p =
      if lookahead rest = some '|' then (some Token.Or, rest.tail, p + 1)
      else (none, rest, p + 1) := by
  simp [next_token_with]

/-- Unfolding of the nine single-character operator and punctuation arms of
`next_token_with`, one conjunct per arm. -/
theorem next_token_with_single_char (alnum : Char → Bool) (rest : List Char) (p : Nat) :
    next_token_with alnum ('+' :: rest) p = (some Token.Plus, rest, p + 1) ∧
    next_token_with alnum ('-' :: rest) p = (some Token.Minus, rest, p + 1) ∧
    next_token_with alnum ('*' :: rest) p = (some Token.Multiply, rest, p + 1) ∧
    next_token_with alnum ('/' :: rest) p = (some Token.Divide, rest, p + 1) ∧
    next_token_with alnum ('(' :: rest) p = (some Token.Lparen, rest, p + 1) ∧
    next_token_with alnum (')' :: rest) p = (some Token.Rparen, rest, p + 1) ∧
    next_token_with alnum ('\x7b' :: rest) p = (some Token.CurlyL, rest, p + 1) ∧
    next_token_with alnum ('\x7d' :: rest) p = (some Token.CurlyR, rest, p + 1) ∧
    next_token_with alnum ('!' :: rest) p = (some Token.Not, rest, p + 1) := by
  refine ⟨?_, ?_, ?_, ?_, ?_, ?_, ?_, ?_, ?_⟩ <;> simp [next_token_with]

/-- Characters that start no token at all: anything outside every dispatch
arm, or a lone `'&'`, or a lone `'|'`.  In each case `next_token_with`
consumes the one dispatch character and yields no token, exactly like
end-of-input.  (No dispatch arm consults the alphanumeric predicate.) -/
theorem next_token_with_unrecognized (alnum : Char → Bool) (c : Char) (rest : List Char) (p : Nat)
    (h : (¬('0' ≤ c ∧ c ≤ '9') ∧ ¬('a' ≤ c ∧ c ≤ 'z') ∧
            c ∉ ['+', '-', '*', '/', '(', ')', ' ', '=', '\x7b', '\x7d', '<', '>', '!', '&', '|'])
        ∨ (c = '&' ∧ lookahead rest ≠ some '&')
        ∨ (c = '|' ∧ lookahead rest ≠ some '|')) :
    next_token_with alnum (c :: rest) p = (none, rest, p + 1) := by
  rcases h with ⟨h1, h2, hm⟩ | ⟨rfl, hl⟩ | ⟨rfl, hl⟩
  · simp only [List.mem_cons, List.mem_singleton, not_or] at hm
    obtain ⟨m1, m2, m3, m4, m5, m6, m7, m8, m9, m10, m11, m12, m13, m14, m15, -⟩ := hm
    simp only [next_token_with]
    rw [if_neg h1, if_neg h2, if_neg m1, if_neg m2, if_neg m3, if_neg m4, if_neg m5,
      if_neg m6, if_neg m7, if_neg m8, if_neg m9, if_neg m10, if_neg m11, if_neg m12,
      if_neg m13, if_neg m14, if_neg m15]
  · simp [next_token_with, hl]
  · simp [next_token_with, hl]

/-- Unrecognized starts, at the ASCII instantiation. -/
theorem next_token_unrecognized (c : Char) (rest : List Char) (p : Nat)
    (h : (¬('0' ≤ c ∧ c ≤ '9') ∧ ¬('a' ≤ c ∧ c ≤ 'z') ∧
            c ∉ ['+', '-', '*', '/', '(', ')', ' ', '=', '\x7b', '\x7d', '<', '>', '!', '&', '|'])
        ∨ (c = '&' ∧ lookahead rest ≠ some '&')
        ∨ (c = '|' ∧ lookahead rest ≠ some '|')) :
    next_token (c :: rest) p = (none, rest, p + 1) :=
  next_token_with_unrecognized is_alphanumeric c rest p h

/-- The digit-accumulation loop never produces input it did not have. -/
theorem readNumber_len : ∀ (ds : List Char) (t : Int), (readNumber t ds).2.length ≤ ds.length := by
  intro ds
  induction ds with
  | nil => intro t; simp [readNumber]
  | cons c rest ih =>
    intro t
    simp only [readNumber]
    cases hd : to_digit c with
    | some num => exact le_trans (ih _) (Nat.le_succ _)
    | none => simp

/-- The identifier-accumulation loop never produces input it did not have,
whatever the continuation predicate. -/
theorem read_string_with_len (alnum : Char → Bool) :
    ∀ ds : List Char, (read_string_with alnum ds).2.length ≤ ds.length := by
  intro ds
  induction ds with
  | nil => simp [read_string_with]
  | cons c rest ih =>
    simp only [read_string_with]
    split
    · exact le_trans ih (Nat.le_succ _)
    · simp

/-- A successful lookahead means the remaining input is nonempty. -/
theorem lookahead_some_len {rest : List Char} {ch : Char} (h : lookahead rest = some ch) :
    1 ≤ rest.length := by
  cases rest with
  | nil => simp [lookahead] at h
  | cons a l => simp

/-- Every dispatch arm other than the space retry, the digit arm and the
identifier arm returns directly with the position field incremented once and
a remaining input no longer than the tail. -/
theorem next_token_with_other (alnum : Char → Bool) (c : Char) (rest : List Char) (p : Nat)
    (hsp : ¬c = ' ') (h1 : ¬('0' ≤ c ∧ c ≤ '9')) (h2 : ¬('a' ≤ c ∧ c ≤ 'z')) :
    ∃ (o : Option Token) (s : List Char),
      next_token_with alnum (c :: rest) p = (o, s, p + 1) ∧ s.length ≤ rest.length := by
  have ht := List.length_tail rest
  by_cases hplus : c = '+'
  · exact hplus ▸ ⟨_, _, (next_token_with_single_char alnum rest p).1, le_refl _⟩
  by_cases hminus : c = '-'
  · exact hminus ▸ ⟨_, _, (next_token_with_single_char alnum rest p).2.1, le_refl _⟩
  by_cases hstar : c = '*'
  · exact hstar ▸ ⟨_, _, (next_token_with_single_char alnum rest p).2.2.1, le_refl _⟩
  by_cases hslash : c = '/'
  · exact hslash ▸ ⟨_, _, (next_token_with_single_char alnum rest p).2.2.2.1, le_refl _⟩
  by_cases hlpar : c = '('
  · exact hlpar ▸ ⟨_, _, (next_token_with_single_char alnum rest p).2.2.2.2.1, le_refl _⟩
  by_cases hrpar : c = ')'
  · exact hrpar ▸ ⟨_, _, (next_token_with_single_char alnum rest p).2.2.2.2.2.1, le_refl _⟩
  by_cases hlcur : c = '\x7b'
  · exact hlcur ▸ ⟨_, _, (next_token_with_single_char alnum rest p).2.2.2.2.2.2.1, le_refl _⟩
  by_cases hrcur : c = '\x7d'
  · exact hrcur ▸ ⟨_, _, (next_token_with_single_char alnum rest p).2.2.2.2.2.2.2.1, le_refl _⟩
  by_cases hbang : c = '!'
  · exact hbang ▸ ⟨_, _, (next_token_with_single_char alnum rest p).2.2.2.2.2.2.2.2, le_refl _⟩
  by_cases heq : c = '='
  · subst heq
    rw [next_token_with_eq_dispatch]
    by_cases hl : lookahead rest = some '='
    · rw [if_pos hl]; exact ⟨_, _, rfl, by omega⟩
    · rw [if_neg hl]; exact ⟨_, _, rfl, le_refl _⟩
  by_cases hlt : c = '<'
  · subst hlt
    rw [next_token_with_lt_dispatch]
    by_cases hl : lookahead rest = some '='
    · rw [if_pos hl]; exact ⟨_, _, rfl, by omega⟩
    · rw [if_neg hl]; exact ⟨_, _, rfl, le_refl _⟩
  by_cases hgt : c = '>'
  · subst hgt
    rw [next_token_with_gt_dispatch]
    by_cases hl : lookahead rest = some '='
    · rw [if_pos hl]; exact ⟨_, _, rfl, by omega⟩
    · rw [if_neg hl]; exact ⟨_, _, rfl, le_refl _⟩
  by_cases hamp : c = '&'
  · subst hamp
    rw [next_token_with_amp_dispatch]
    by_cases hl : lookahead rest = some '&'
    · rw [if_pos hl]; exact ⟨_, _, rfl, by omega⟩
    · rw [if_neg hl]; exact ⟨_, _, rfl, le_refl _⟩
  by_cases hpipe : c = '|'
  · subst hpipe
    rw [next_token_with_pipe_dispatch]
    by_cases hl : lookahead rest = some '|'
    · rw [if_pos hl]; exact ⟨_, _, rfl, by omega⟩
    · rw [if_neg hl]; exact ⟨_, _, rfl, le_refl _⟩
  have hmem : c ∉ ['+', '-', '*', '/', '(', ')', ' ', '=', '\x7b', '\x7d', '<', '>', '!', '&', '|'] := by
    simp only [List.mem_cons, List.mem_singleton, not_or]
    exact ⟨hplus, hminus, hstar, hslash, hlpar, hrpar, hsp, heq, hlcur, hrcur, hlt, hgt,
      hbang, hamp, hpipe, by simp⟩
  exact ⟨_, _, next_token_with_unrecognized alnum c rest p (Or.inl ⟨h1, h2, hmem⟩), le_refl _⟩

/-- Bounds on one extraction step, for any continuation predicate: the
position field never decreases, the remaining input never grows, it
strictly shrinks whenever a character was available, and the position field
advances by at most the number of characters consumed. -/
theorem next_token_with_bounds (alnum : Char → Bool) (input : List Char) : ∀ p : Nat,
    p ≤ (next_token_with alnum input p).2.2 ∧
    (next_token_with alnum input p).2.1.length ≤ input.length ∧
    (input ≠ [] → (next_token_with alnum input p).2.1.length < input.length) ∧
    (next_token_with alnum input p).2.2 - p ≤
      input.length - (next_token_with alnum input p).2.1.length := by
  induction input with
  | nil => intro p; simp [next_token_with]
  | cons c rest ih =>
    intro p
    by_cases hsp : c = ' '
    · subst hsp
      rw [next_token_with_space]
      have ha := (ih (p + 1)).1
      have hb := (ih (p + 1)).2.1
      have hc := (ih (p + 1)).2.2.2
      dsimp only [List.length_cons]
      refine ⟨?_, ?_, fun _ => ?_, ?_⟩ <;> omega
    · by_cases h1 : '0' ≤ c ∧ c ≤ '9'
      · rw [next_token_with_digit alnum c rest p h1]
        have hr := readNumber_len rest (Int.ofNat (c.toNat - 48))
        dsimp only [List.length_cons]
        refine ⟨?_, ?_, fun _ => ?_, ?_⟩ <;> omega
      · by_cases h2 : 'a' ≤ c ∧ c ≤ 'z'
        · rw [next_token_with_lower alnum c rest p h2]
          have hr := read_string_with_len alnum rest
          dsimp only [List.length_cons]
          refine ⟨?_, ?_, fun _ => ?_, ?_⟩ <;> omega
        · obtain ⟨o, s, he, hl⟩ := next_token_with_other alnum c rest p hsp h1 h2
          rw [he]
          dsimp only [List.length_cons]
          refine ⟨?_, ?_, fun _ => ?_, ?_⟩ <;> omega

/-- Step bounds, at the ASCII instantiation. -/
theorem next_token_bounds (input : List Char) : ∀ p : Nat,
    p ≤ (next_token input p).2.2 ∧
    (next_token input p).2.1.length ≤ input.length ∧
    (input ≠ [] → (next_token input p).2.1.length < input.length) ∧
    (next_token input p).2.2 - p ≤ input.length - (next_token input p).2.1.length :=
  next_token_with_bounds is_alphanumeric input

/-- When one step produced a token, the input was nonempty. -/
theorem next_token_with_some_ne (alnum : Char → Bool) {input : List Char} {p : Nat} {t : Token}
    {input1 : List Char} {p1 : Nat}
    (h : next_token_with alnum input p = (some t, input1, p1)) : input ≠ [] := by
  intro he
  subst he
  simp [next_token_with] at h

/-- Progress: a step that yields a token consumed at least one character. -/
theorem next_token_with_progress (alnum : Char → Bool) {input : List Char} {p : Nat} {t : Token}
    {input1 : List Char} {p1 : Nat}
    (h : next_token_with alnum input p = (some t, input1, p1)) :
    input1.length < input.length := by
  have hne := next_token_with_some_ne alnum h
  have hb := (next_token_with_bounds alnum input p).2.2.1 hne
  rw [h] at hb
  simpa using hb

/-- The fuelled extraction loop is fuel-independent once the fuel exceeds
the input length, so `tokenize_with` denotes the limit of the Rust loop. -/
theorem tokenize_fuel_with_adequate (alnum : Char → Bool) :
    ∀ (f1 f2 : Nat) (input : List Char) (p : Nat),
    input.length < f1 → input.length < f2 →
    tokenize_fuel_with alnum f1 input p = tokenize_fuel_with alnum f2 input p := by
  intro f1
  induction f1 with
  | zero => intro f2 input p hf1 _; exact absurd hf1 (Nat.not_lt_zero _)
  | succ a ih =>
    intro f2 input p hf1 hf2
    cases f2 with
    | zero => exact absurd hf2 (Nat.not_lt_zero _)
    | succ b =>
      simp only [tokenize_fuel_with]
      rcases hnt : next_token_with alnum input p with ⟨o, s, q⟩
      cases o with
      | none => rfl
      | some t =>
        have hs : s.length < input.length := next_token_with_progress alnum hnt
        dsimp only
        rw [ih b s q (by omega) (by omega)]

/-- Fuel adequacy, at the ASCII instantiation. -/
theorem tokenize_fuel_adequate : ∀ (f1 f2 : Nat) (input : List Char) (p : Nat),
    input.length < f1 → input.length < f2 →
    tokenize_fuel f1 input p = tokenize_fuel f2 input p :=
  tokenize_fuel_with_adequate is_alphanumeric

/-- One unfolding of the loop when the step yields no token: the loop stops
in the state the failing step left behind. -/
theorem tokenize_fuel_with_none (alnum : Char → Bool) {input s : List Char} {p q : Nat} (f : Nat)
    (h : next_token_with alnum input p = (none, s, q)) :
    tokenize_fuel_with alnum (f + 1) input p = ([], s, q) := by
  simp only [tokenize_fuel_with]
  rw [h]

/-- One unfolding of the loop when the step yields a token. -/
theorem tokenize_fuel_with_some (alnum : Char → Bool) {input s : List Char} {p q : Nat}
    {t : Token} (f : Nat) (h : next_token_with alnum input p = (some t, s, q)) :
    tokenize_fuel_with alnum (f + 1) input p =
      (t :: (tokenize_fuel_with alnum f s q).1, (tokenize_fuel_with alnum f s q).2) := by
  simp only [tokenize_fuel_with]
  rw [h]

/-- Unfolding equation for `tokenize_with` when the first step yields no
token: this is exactly the exit of the `while let` loop of the source. -/
theorem tokenize_with_none (alnum : Char → Bool) {input s : List Char} {p q : Nat}
    (h : next_token_with alnum input p = (none, s, q)) :
    tokenize_with alnum input p = ([], s, q) := by
  unfold tokenize_with
  exact tokenize_fuel_with_none alnum input.length h

/-- Loop exit, at the ASCII instantiation. -/
theorem tokenize_none {input s : List Char} {p q : Nat}
    (h : next_token input p = (none, s, q)) : tokenize input p = ([], s, q) :=
  tokenize_with_none is_alphanumeric h

/-- On exhausted input a step returns nothing and leaves the state alone. -/
theorem next_token_with_nil (alnum : Char → Bool) (p : Nat) :
    next_token_with alnum [] p = (none, [], p) := rfl

/-- On exhausted input the loop returns no tokens and leaves the state
alone. -/
theorem tokenize_with_nil (alnum : Char → Bool) (p : Nat) :
    tokenize_with alnum [] p = ([], [], p) :=
  tokenize_with_none alnum (next_token_with_nil alnum p)

/-- Empty-input behavior, at the ASCII instantiation. -/
theorem tokenize_nil (p : Nat) : tokenize [] p = ([], [], p) :=
  tokenize_with_nil is_alphanumeric p

/-- Unfolding equation for `tokenize_with` when the first step yields a
token: the token is pushed and the loop continues from the new state. -/
theorem tokenize_with_some (alnum : Char → Bool) {input s : List Char} {p q : Nat} {t : Token}
    (h : next_token_with alnum input p = (some t, s, q)) :
    tokenize_with alnum input p =
      (t :: (tokenize_with alnum s q).1, (tokenize_with alnum s q).2) := by
  have hs : s.length < input.length := next_token_with_progress alnum h
  unfold tokenize_with
  rw [tokenize_fuel_with_some alnum input.length h,
    tokenize_fuel_with_adequate alnum input.length (s.length + 1) s q hs (Nat.lt_succ_self _)]

/-- Loop continuation, at the ASCII instantiation. -/
theorem tokenize_some {input s : List Char} {p q : Nat} {t : Token}
    (h : next_token input p = (some t, s, q)) :
    tokenize input p = (t :: (tokenize s q).1, (tokenize s q).2) :=
  tokenize_with_some is_alphanumeric h

/-- Bounds on the whole loop, for any fuel and continuation predicate: the
position field never decreases, the remaining input never grows, and no
more tokens are produced than there were input characters. -/
theorem tokenize_fuel_with_bounds (alnum : Char → Bool) :
    ∀ (f : Nat) (input : List Char) (p : Nat),
    p ≤ (tokenize_fuel_with alnum f input p).2.2 ∧
    (tokenize_fuel_with alnum f input p).2.1.length ≤ input.length ∧
    (tokenize_fuel_with alnum f input p).1.length ≤ input.length := by
  intro f
  induction f with
  | zero => intro input p; simp [tokenize_fuel_with]
  | succ a ih =>
    intro input p
    simp only [tokenize_fuel_with]
    rcases hnt : next_token_with alnum input p with ⟨o, s, q⟩
    have hb := next_token_with_bounds alnum input p
    rw [hnt] at hb
    dsimp only at hb
    cases o with
    | none =>
      dsimp only
      exact ⟨hb.1, hb.2.1, by simp⟩
    | some t =>
      have hs : s.length < input.length := next_token_with_progress alnum hnt
      have hi := ih s q
      dsimp only [List.length_cons]
      refine ⟨?_, ?_, ?_⟩ <;> omega

/-- Loop bounds, at the ASCII instantiation. -/
theorem tokenize_fuel_bounds : ∀ (f : Nat) (input : List Char) (p : Nat),
    p ≤ (tokenize_fuel f input p).2.2 ∧
    (tokenize_fuel f input p).2.1.length ≤ input.length ∧
    (tokenize_fuel f input p).1.length ≤ input.length :=
  tokenize_fuel_with_bounds is_alphanumeric

/-- The wrap is the identity on values already inside the `i32` range. -/
theorem i32wrap_eq_self {x : Int} (h0 : -(2 ^ 31) ≤ x) (h1 : x < 2 ^ 31) : i32wrap x = x := by
  have e1 : (2 : Int) ^ 31 = 2147483648 := by norm_num
  have e2 : (2 : Int) ^ 32 = 4294967296 := by norm_num
  unfold i32wrap
  rw [e1, e2]
  rw [e1] at h0 h1
  omega

/-- The wrap is the identity on naturals below `2 ^ 31`. -/
theorem i32wrap_ofNat {m : Nat} (h : m < 2 ^ 31) : i32wrap (Int.ofNat m) = Int.ofNat m := by
  have h1 : (Int.ofNat m) < 2 ^ 31 := by
    rw [Int.ofNat_eq_coe]
    exact_mod_cast h
  have h0 : -(2 ^ 31) ≤ Int.ofNat m := le_trans (by norm_num) (Int.ofNat_nonneg m)
  exact i32wrap_eq_self h0 h1

/-- Accumulating digits never decreases the running value. -/
theorem decValAux_ge : ∀ (ds : List Char) (a : Nat), a ≤ decValAux a ds := by
  intro ds
  induction ds with
  | nil => intro a; exact le_refl _
  | cons c rest ih =>
    intro a
    calc a ≤ a * 10 + (c.toNat - 48) := by omega
    _ ≤ decValAux (a * 10 + (c.toNat - 48)) rest := ih _

/-- On an all-digit input whose accumulated value stays below `2 ^ 31`, the
digit loop consumes everything, no wrap fires, and the result is the exact
decimal value. -/
theorem readNumber_digits : ∀ (ds : List Char) (a : Nat),
    (∀ c ∈ ds, '0' ≤ c ∧ c ≤ '9') → decValAux a ds < 2 ^ 31 →
    readNumber (Int.ofNat a) ds = (Int.ofNat (decValAux a ds), []) := by
  intro ds
  induction ds with
  | nil => intro a _ _; rfl
  | cons c rest ih =>
    intro a hd hb
    have hc := hd c (List.mem_cons_self c rest)
    have hrest : ∀ x ∈ rest, '0' ≤ x ∧ x ≤ '9' := fun x hx => hd x (List.mem_cons_of_mem _ hx)
    have hdig : to_digit c = some (c.toNat - 48) := by rw [to_digit, if_pos hc]
    have hstep : decValAux a (c :: rest) = decValAux (a * 10 + (c.toNat - 48)) rest := rfl
    have hge : a * 10 + (c.toNat - 48) ≤ decValAux (a * 10 + (c.toNat - 48)) rest :=
      decValAux_ge _ _
    have hblt : decValAux (a * 10 + (c.toNat - 48)) rest < 2 ^ 31 := by rw [hstep] at hb; exact hb
    have hmul : Int.ofNat a * 10 = Int.ofNat (a * 10) := by
      simp only [Int.ofNat_eq_coe]
      push_cast
      ring
    have w1 : i32wrap (Int.ofNat a * 10) = Int.ofNat (a * 10) := by
      rw [hmul]
      exact i32wrap_ofNat (by omega)
    have hadd : Int.ofNat (a * 10) + Int.ofNat (c.toNat - 48) =
        Int.ofNat (a * 10 + (c.toNat - 48)) := by
      simp only [Int.ofNat_eq_coe]
      push_cast
      ring
    have w2 : i32wrap (Int.ofNat (a * 10) + Int.ofNat (c.toNat - 48)) =
        Int.ofNat (a * 10 + (c.toNat - 48)) := by
      rw [hadd]
      exact i32wrap_ofNat (by omega)
    simp only [readNumber, hdig]
    rw [w1, w2]
    exact ih (a * 10 + (c.toNat - 48)) hrest hblt

/-- The identifier loop consumes exactly a maximal run of characters the
continuation predicate accepts: given such a run followed by input that
does not start with an accepted character, it returns the run and the
boundary untouched — for any predicate, in particular the real Unicode
`char::is_alphanumeric`. -/
theorem read_string_with_spec (alnum : Char → Bool) : ∀ (cs rest : List Char),
    (∀ x ∈ cs, alnum x = true) → idBoundary alnum rest = true →
    read_string_with alnum (cs ++ rest) = (cs, rest) := by
  intro cs
  induction cs with
  | nil =>
    intro rest _ hb
    cases rest with
    | nil => rfl
    | cons c r =>
      simp only [idBoundary, Bool.not_eq_true'] at hb
      simp [read_string_with, hb]
  | cons x cs ih =>
    intro rest hcs hb
    have hx : alnum x = true := hcs x (List.mem_cons_self x cs)
    have hcs2 : ∀ y ∈ cs, alnum y = true := fun y hy => hcs y (List.mem_cons_of_mem _ hy)
    simp only [List.cons_append, read_string_with, hx, if_true]
    rw [show cs.append rest = cs ++ rest from rfl, ih rest hcs2 hb]

/-- C1 counterexample: the claim fails as stated.  At the all-digit input
"2147483648" the accumulated `i32` wraps, so the payload is not the string's
decimal value; and at the empty string (which consists only of digit
characters, vacuously) no `Number` token is produced at all. -/
theorem c1_counterexample :
    (tokenize "2147483648".data 0).1 ≠ [Token.Number 2147483648] ∧
    (tokenize "2147483648".data 0).1 = [Token.Number (-2147483648)] ∧
    (tokenize "".data 0).1 = [] := by decide

/-- C1 (amended): for every nonempty string of decimal digit characters
whose decimal value is below `2 ^ 31` (so that the unchecked `i32`
accumulation cannot overflow), `tokenize` returns exactly one `Number` token
whose payload is the string's decimal value. -/
theorem c1_all_digits (ds : List Char) (hne : ds ≠ [])
    (hd : ∀ c ∈ ds, '0' ≤ c ∧ c ≤ '9') (hb : decVal ds < 2 ^ 31) :
    (tokenize ds 0).1 = [Token.Number (Int.ofNat (decVal ds))] := by
  cases ds with
  | nil => exact absurd rfl hne
  | cons c rest =>
    have hc := hd c (List.mem_cons_self c rest)
    have hrest : ∀ x ∈ rest, '0' ≤ x ∧ x ≤ '9' := fun x hx => hd x (List.mem_cons_of_mem _ hx)
    have hv : decVal (c :: rest) = decValAux (c.toNat - 48) rest := by
      show decValAux (0 * 10 + (c.toNat - 48)) rest = decValAux (c.toNat - 48) rest
      have h : 0 * 10 + (c.toNat - 48) = c.toNat - 48 := by omega
      rw [h]
    have hblt : decValAux (c.toNat - 48) rest < 2 ^ 31 := by rw [hv] at hb; exact hb
    have hr : readNumber (Int.ofNat (c.toNat - 48)) rest =
        (Int.ofNat (decValAux (c.toNat - 48) rest), []) :=
      readNumber_digits rest (c.toNat - 48) hrest hblt
    have hnt : next_token (c :: rest) 0 =
        (some (Token.Number (Int.ofNat (decValAux (c.toNat - 48) rest))), [], 1) := by
      rw [next_token_digit c rest 0 hc, hr]
    have h2 := tokenize_some hnt
    rw [h2]
    show Token.Number (Int.ofNat (decValAux (c.toNat - 48) rest)) :: (tokenize [] 1).1 =
      [Token.Number (Int.ofNat (decVal (c :: rest)))]
    rw [tokenize_nil 1, hv]

/-- Witness for C1 at the input "100" of the spec's example. -/
theorem c1_witness :
    (tokenize "100".data 0).1 = [Token.Number (Int.ofNat (decVal "100".data))] ∧
    decVal "100".data = 100 :=
  ⟨c1_all_digits "100".data (by decide) (by decide) (by decide), by decide⟩

/-- C2: at a `'='` the tokenizer emits `Equals` consuming both characters
when the next character is `'='`, otherwise `Assign` consuming only the one
`'='`; analogously for `'<'` and `'>'` with `SmallerEquals`/`SmallerThan`
and `GreaterEquals`/`GreaterThan`; and "x === 10" tokenizes to
`[Id "x", Equals, Assign, Number 10]`. -/
theorem c2_two_char_operators (rest : List Char) (p : Nat) :
    next_token ('=' :: '=' :: rest) p = (some Token.Equals, rest, p + 1) ∧
    (lookahead rest ≠ some '=' →
      next_token ('=' :: rest) p = (some Token.Assign, rest, p + 1)) ∧
    next_token ('<' :: '=' :: rest) p = (some Token.SmallerEquals, rest, p + 1) ∧
    (lookahead rest ≠ some '=' →
      next_token ('<' :: rest) p = (some Token.SmallerThan, rest, p + 1)) ∧
    next_token ('>' :: '=' :: rest) p = (some Token.GreaterEquals, rest, p + 1) ∧
    (lookahead rest ≠ some '=' →
      next_token ('>' :: rest) p = (some Token.GreaterThan, rest, p + 1)) ∧
    (tokenize "x === 10".data 0).1 =
      [Token.Id "x", Token.Equals, Token.Assign, Token.Number 10] := by
  refine ⟨?_, fun h => ?_, ?_, fun h => ?_, ?_, fun h => ?_, by decide⟩
  · rw [next_token_eq_dispatch ('=' :: rest) p,
      if_pos (show lookahead ('=' :: rest) = some '=' from rfl)]
    rfl
  · rw [next_token_eq_dispatch rest p, if_neg h]
  · rw [next_token_lt_dispatch ('=' :: rest) p,
      if_pos (show lookahead ('=' :: rest) = some '=' from rfl)]
    rfl
  · rw [next_token_lt_dispatch rest p, if_neg h]
  · rw [next_token_gt_dispatch ('=' :: rest) p,
      if_pos (show lookahead ('=' :: rest) = some '=' from rfl)]
    rfl
  · rw [next_token_gt_dispatch rest p, if_neg h]

/-- Witness for C2 at a concrete position where the lone-`'='` hypothesis
holds. -/
theorem c2_witness :
    next_token ['=', '=', ' '] 0 = (some Token.Equals, [' '], 1) ∧
    next_token ['=', ' '] 0 = (some Token.Assign, [' '], 1) :=
  ⟨(c2_two_char_operators [' '] 0).1, (c2_two_char_operators [' '] 0).2.1 (by decide)⟩

/-- C3: at a lowercase letter the tokenizer first accumulates the whole
contiguous alphanumeric run, then looks the complete name up in the keyword
table, emitting `If`/`Else` on a match and `Id name` otherwise; keywords are
never matched as prefixes, so "if x = 10" yields `[If, Id "x", Assign,
Number 10]` while "ifx = 10" yields `[Id "ifx", Assign, Number 10]`.  The
general conjunct is parametric in the alphanumeric continuation predicate
and so holds in particular for the real Unicode `char::is_alphanumeric`:
an alphanumeric character after the run (ASCII or not, e.g. `'é'`) fails
the boundary hypothesis, so no keyword-prefix match is ever asserted. -/
theorem c3_keyword_after_accumulation (alnum : Char → Bool) (c : Char) (cs rest : List Char)
    (p : Nat) (hc : 'a' ≤ c ∧ c ≤ 'z') (hcs : ∀ x ∈ cs, alnum x = true)
    (hb : idBoundary alnum rest = true) :
    next_token_with alnum (c :: (cs ++ rest)) p =
      (some (keyword_lookup (String.mk (c :: cs))), rest, p + 1) ∧
    (tokenize "if x = 10".data 0).1 =
      [Token.If, Token.Id "x", Token.Assign, Token.Number 10] ∧
    (tokenize "ifx = 10".data 0).1 =
      [Token.Id "ifx", Token.Assign, Token.Number 10] := by
  refine ⟨?_, by decide, by decide⟩
  rw [next_token_with_lower alnum c (cs ++ rest) p hc, read_string_with_spec alnum cs rest hcs hb]

/-- Witness for C3: the name "ifx" is accumulated whole under the ASCII
instantiation, and under a predicate that (like Unicode) accepts `'é'` the
name "ifé" is accumulated whole as well — neither partially matches the
keyword `if`. -/
theorem c3_witness :
    next_token_with is_alphanumeric ('i' :: (['f', 'x'] ++ [])) 0 =
      (some (Token.Id "ifx"), [], 1) ∧
    next_token_with (fun ch => is_alphanumeric ch || ch = 'é') ('i' :: (['f', 'é'] ++ [])) 0 =
      (some (Token.Id "ifé"), [], 1) := by
  constructor
  · have h := (c3_keyword_after_accumulation is_alphanumeric 'i' ['f', 'x'] [] 0 (by decide)
      (by decide) (by decide)).1
    rw [h]
    decide
  · have h := (c3_keyword_after_accumulation (fun ch => is_alphanumeric ch || ch = 'é') 'i'
      ['f', 'é'] [] 0 (by decide) (by decide) (by decide)).1
    rw [h]
    decide

/-- C4: at a character that starts no recognized token (an unsupported
symbol, tab, newline, an uppercase-letter start, a lone `'&'`, or a lone
`'|'`) the scan stops silently exactly as at end-of-input: no further token
is emitted, the remaining characters are never tokenized, and the token
output is the same as on empty input. -/
theorem c4_unrecognized_stops (c : Char) (rest : List Char) (p : Nat)
    (h : (¬('0' ≤ c ∧ c ≤ '9') ∧ ¬('a' ≤ c ∧ c ≤ 'z') ∧
            c ∉ ['+', '-', '*', '/', '(', ')', ' ', '=', '\x7b', '\x7d', '<', '>', '!', '&', '|'])
        ∨ (c = '&' ∧ lookahead rest ≠ some '&')
        ∨ (c = '|' ∧ lookahead rest ≠ some '|')) :
    next_token (c :: rest) p = (none, rest, p + 1) ∧
    tokenize (c :: rest) p = ([], rest, p + 1) ∧
    (tokenize (c :: rest) p).1 = (tokenize [] p).1 := by
  have hn := next_token_unrecognized c rest p h
  have ht : tokenize (c :: rest) p = ([], rest, p + 1) := tokenize_none hn
  exact ⟨hn, ht, by rw [ht, tokenize_nil p]⟩

/-- Witness for C4 at a tab character followed by a digit: the digit is
never tokenized. -/
theorem c4_witness :
    next_token ['\t', '1'] 0 = (none, ['1'], 1) ∧ (tokenize ['\t', '1'] 0).1 = [] := by
  have h := c4_unrecognized_stops '\t' ['1'] 0 (Or.inl (by decide))
  exact ⟨h.1, by rw [h.2.1]⟩

/-- C5 counterexample: the claim that the cursor (the `position` field)
equals the count of characters consumed fails.  Tokenizing "10" from
position 0 consumes both characters (the remaining input is empty) yet
leaves the `position` field at 1, not 2: inner peek-then-consume steps
advance the input without touching `position`. -/
theorem c5_counterexample :
    (tokenize "10".data 0).2.1 = [] ∧ (tokenize "10".data 0).2.2 = 1 ∧
    "10".data.length = 2 := by decide

/-- C5 (amended): the `position` field is monotonically non-decreasing
across every operation and advances by at most the number of characters
consumed (it can lag, as it counts only dispatch characters); lookahead is a
read-only function of the state, so a peek never advances anything. -/
theorem c5_cursor_properties (input : List Char) (p : Nat) :
    lookahead input = input.head? ∧
    p ≤ (next_token input p).2.2 ∧
    (next_token input p).2.2 - p ≤ input.length - (next_token input p).2.1.length ∧
    p ≤ (tokenize input p).2.2 := by
  have h1 := next_token_bounds input p
  have h2 := tokenize_fuel_bounds (input.length + 1) input p
  exact ⟨rfl, h1.1, h1.2.2.2, h2.1⟩

/-- C6: tokenization terminates because a step that yields a token always
consumes at least one character; the loop is bounded by the input length
(any fuel beyond the input length gives the same result) and cannot produce
more tokens than there were characters. -/
theorem c6_termination (input : List Char) (p : Nat) :
    (input ≠ [] → (next_token input p).2.1.length < input.length) ∧
    (tokenize input p).1.length ≤ input.length ∧
    (∀ f : Nat, input.length < f → tokenize_fuel f input p = tokenize input p) := by
  refine ⟨(next_token_bounds input p).2.2.1,
    (tokenize_fuel_bounds (input.length + 1) input p).2.2, ?_⟩
  intro f hf
  exact tokenize_fuel_adequate f (input.length + 1) input p hf (Nat.lt_succ_self _)

/-- Witness for C6 at a one-character input. -/
theorem c6_witness :
    (next_token ['7'] 0).2.1.length < (['7'] : List Char).length ∧
    tokenize_fuel 2 ['7'] 0 = tokenize ['7'] 0 :=
  ⟨(c6_termination ['7'] 0).1 (by decide), (c6_termination ['7'] 0).2.2 2 (by decide)⟩

/-- C7: a single space is skipped and scanning retries at the next
character, while tab and newline are not recognized (they stop the scan);
consequently "10 +2*(3-4)/5" tokenizes to `[Number 10, Plus, Number 2,
Multiply, Lparen, Number 3, Minus, Number 4, Rparen, Divide, Number 5]`. -/
theorem c7_whitespace (rest : List Char) (p : Nat) :
    next_token (' ' :: rest) p = next_token rest (p + 1) ∧
    next_token ('\t' :: rest) p = (none, rest, p + 1) ∧
    next_token ('\n' :: rest) p = (none, rest, p + 1) ∧
    (tokenize "10 +2*(3-4)/5".data 0).1 =
      [Token.Number 10, Token.Plus, Token.Number 2, Token.Multiply, Token.Lparen,
       Token.Number 3, Token.Minus, Token.Number 4, Token.Rparen, Token.Divide,
       Token.Number 5] :=
  ⟨next_token_space rest p,
   next_token_unrecognized '\t' rest p (Or.inl (by decide)),
   next_token_unrecognized '\n' rest p (Or.inl (by decide)),
   by decide⟩

/-- C8: in the digit arm the conversion of the dispatched character to a
digit never fails: under the guard `'0' ≤ c ≤ '9'` the `to_digit` call
succeeds and a digit-start position always produces a `Number` token. -/
theorem c8_digit_guard (c : Char) (rest : List Char) (p : Nat) (h : '0' ≤ c ∧ c ≤ '9') :
    (to_digit c).isSome = true ∧
    ∃ n : Int, (next_token (c :: rest) p).1 = some (Token.Number n) := by
  constructor
  · rw [to_digit, if_pos h]
    rfl
  · refine ⟨(readNumber (Int.ofNat (c.toNat - 48)) rest).1, ?_⟩
    rw [next_token_digit c rest p h]

/-- Witness for C8 at the digit `'5'`. -/
theorem c8_witness :
    (to_digit '5').isSome = true ∧
    ∃ n : Int, (next_token ['5'] 0).1 = some (Token.Number n) :=
  c8_digit_guard '5' [] 0 (by decide)

/-- C9 counterexample: the claim fails as stated, because a fully
accumulated run that spells a keyword does not become an `Identifier`
token: "if" tokenizes to `[If]`, not `[Id "if"]`. -/
theorem c9_counterexample :
    (tokenize "if".data 0).1 = [Token.If] ∧
    (tokenize "if".data 0).1 ≠ [Token.Id "if"] := by decide

/-- C9 (amended): identifier continuation after a lowercase start accepts
any alphanumeric character, including uppercase letters and digits, not
only lowercase letters: the whole run is accumulated into a single token,
and when the accumulated name is not one of the keywords `if`/`else` that
token is `Id name` — never split or truncated at the first non-lowercase
character (e.g. "myVar1" yields the single token `Id "myVar1"`).  The
general conjunct is parametric in the continuation predicate and so holds
in particular for the real Unicode `char::is_alphanumeric`, covering
non-ASCII alphanumeric continuation characters as well. -/
theorem c9_identifier_continuation (alnum : Char → Bool) (c : Char) (cs rest : List Char)
    (p : Nat) (hc : 'a' ≤ c ∧ c ≤ 'z') (hcs : ∀ x ∈ cs, alnum x = true)
    (hb : idBoundary alnum rest = true)
    (hk1 : String.mk (c :: cs) ≠ "if") (hk2 : String.mk (c :: cs) ≠ "else") :
    next_token_with alnum (c :: (cs ++ rest)) p =
      (some (Token.Id (String.mk (c :: cs))), rest, p + 1) ∧
    (tokenize "myVar1".data 0).1 = [Token.Id "myVar1"] := by
  refine ⟨?_, by decide⟩
  rw [next_token_with_lower alnum c (cs ++ rest) p hc, read_string_with_spec alnum cs rest hcs hb]
  simp only [keyword_lookup, if_neg hk1, if_neg hk2]

/-- Witness for C9: the name "myVar1" (uppercase letter and digit in its
continuation) under the ASCII instantiation, and the name "mé" under a
predicate that (like Unicode) accepts `'é'` — both accumulated whole into a
single `Id` token. -/
theorem c9_witness :
    next_token_with is_alphanumeric ('m' :: (['y', 'V', 'a', 'r', '1'] ++ [])) 0 =
      (some (Token.Id (String.mk ('m' :: ['y', 'V', 'a', 'r', '1']))), [], 1) ∧
    next_token_with (fun ch => is_alphanumeric ch || ch = 'é') ('m' :: (['é'] ++ [])) 0 =
      (some (Token.Id (String.mk ('m' :: ['é']))), [], 1) :=
  ⟨(c9_identifier_continuation is_alphanumeric 'm' ['y', 'V', 'a', 'r', '1'] [] 0 (by decide)
      (by decide) (by decide) (by decide) (by decide)).1,
   (c9_identifier_continuation (fun ch => is_alphanumeric ch || ch = 'é') 'm' ['é'] [] 0
      (by decide) (by decide) (by decide) (by decide) (by decide)).1⟩

/-- C10 counterexample: the claim fails as stated.  On "@5" the first call
returns no tokens (the unrecognized `'@'` stops it) but leaves the digit
`'5'` unconsumed, so a second call from the stopping state produces
`[Number 5]`, not the empty sequence. -/
theorem c10_counterexample :
    (tokenize "@5".data 0).1 = [] ∧
    (tokenize (tokenize "@5".data 0).2.1 (tokenize "@5".data 0).2.2).1 =
      [Token.Number 5] := by decide

/-- C10 (amended): a second `tokenize` call from the state the first call
left behind returns the empty token sequence whenever the first call stopped
at true end-of-input (remaining input empty); when the first call stopped at
an unrecognized character the second call resumes there and may emit
tokens. -/
theorem c10_second_call (input : List Char) (p : Nat)
    (h : (tokenize input p).2.1 = []) :
    (tokenize (tokenize input p).2.1 (tokenize input p).2.2).1 = [] := by
  rw [h, tokenize_nil]

/-- Witness for C10 at the input "5", which the first call consumes
entirely. -/
theorem c10_witness :
    (tokenize "5".data 0).2.1 = [] ∧
    (tokenize (tokenize "5".data 0).2.1 (tokenize "5".data 0).2.2).1 = [] :=
  ⟨by decide, c10_second_call "5".data 0 (by decide)⟩
